import Mathlib

/-!
# Verification of the TMSFTT training-management core

Shallow embedding of the enrollment admission control
(`training_event/services.py`), the record review state machine
(`training_record/services.py`), and the department/group synchronization
tasks (`auth/tasks.py`), together with proofs of the specified properties.

Database transactions are modelled as all-or-nothing state transformers:
an operation returns the successor state together with an `Except` result,
and on failure the returned state is the unchanged input state (rollback).
-/

namespace TMSFTT

/-! ## Enrollment admission control (`training_event/services.py`)

`CampusEvent` carries the capacity (`num_participants`) and the
denormalized counter (`num_enrolled`); both columns are non-negative
integer fields in `training_event/migrations/0001_initial.py`, so they are
modelled as `Nat`.  An `Enrollment` row joins a user to the event; its
primary key is an auto-increment id, modelled by the `nextRowId` counter.
The migration declares `unique_together {(campus_event, user)}`, so
creating a second row for the same user raises an integrity error inside
the transaction.  `PermissionService.assign_object_permissions` is an
external collaborator; the embedding records the (user, enrollment) grant
it is invoked with. -/

structure CampusEvent where
  numParticipants : Nat
  numEnrolled : Nat
  deriving Repr, DecidableEq

structure EnrollmentRow where
  rowId : Nat
  userId : Nat
  deriving Repr, DecidableEq

/-- The per-event slice of the store that `create_enrollment` /
`delete_enrollment` touch under the `select_for_update` row lock. -/
structure EventState where
  event : CampusEvent
  rows : List EnrollmentRow
  permGrants : List (Nat × Nat)
  nextRowId : Nat
  deriving Repr, DecidableEq

inductive EnrollError where
  | capacityExceeded
  | duplicateEnrollment
  deriving Repr, DecidableEq

/-- `EnrollmentService.create_enrollment` (services.py lines 60-91):
lock the event row, fail with 报名人数已满 (`CapacityExceeded`) when
`num_enrolled >= num_participants`, otherwise create the row (the
`unique_together` constraint rejects a duplicate (event, user) pair),
increment `num_enrolled`, and grant object permissions, all in one
transaction.  On failure the transaction rolls back: the returned state is
the input state. -/
def create_enrollment (u : Nat) (s : EventState) :
    EventState × Except EnrollError Nat :=
  if s.event.numParticipants ≤ s.event.numEnrolled then
    (s, Except.error EnrollError.capacityExceeded)
  else if s.rows.any (fun r => r.userId == u) then
    (s, Except.error EnrollError.duplicateEnrollment)
  else
    ({ event := { s.event with numEnrolled := s.event.numEnrolled + 1 },
       rows := s.rows ++ [⟨s.nextRowId, u⟩],
       permGrants := s.permGrants ++ [(u, s.nextRowId)],
       nextRowId := s.nextRowId + 1 },
     Except.ok s.nextRowId)

/-- `EnrollmentService.delete_enrollment` (services.py lines 93-108):
lock the event row, decrement `num_enrolled` unconditionally, then delete
the given instance's row — a DELETE by primary key, which removes nothing
when the row is already gone.  The counter column is unsigned
(`PositiveSmallIntegerField` in the migration), modelled as `Nat`; no
theorem below depends on the underflow case. -/
def delete_enrollment (eid : Nat) (s : EventState) : EventState :=
  { s with
    event := { s.event with numEnrolled := s.event.numEnrolled - 1 },
    rows := s.rows.eraseP (fun r => r.rowId == eid) }

/-- One committed service call against the event. -/
inductive EnrollOp where
  | create (u : Nat)
  | del (eid : Nat)
  deriving Repr, DecidableEq

def applyEnrollOp (s : EventState) : EnrollOp → EventState
  | EnrollOp.create u => (create_enrollment u s).1
  | EnrollOp.del eid => delete_enrollment eid s

def applyEnrollOps (s : EventState) (ops : List EnrollOp) : EventState :=
  ops.foldl applyEnrollOp s

/-- A trace is service-well-formed when every `delete_enrollment` call
receives an `Enrollment` instance that is still persisted at its
serialization point.  The request layer always fetches an existing
instance, but two concurrent deletes of the same row can both pass that
fetch, so real traces may violate this. -/
def wfTrace (s : EventState) : List EnrollOp → Bool
  | [] => true
  | op :: ops =>
    (match op with
     | EnrollOp.create _ => true
     | EnrollOp.del eid => s.rows.any (fun r => r.rowId == eid)) &&
    wfTrace (applyEnrollOp s op) ops

/-- The capacity invariant P1: the denormalized counter equals the number
of persisted rows and stays within capacity. -/
def EventInv (s : EventState) : Prop :=
  s.event.numEnrolled = s.rows.length ∧
    s.event.numEnrolled ≤ s.event.numParticipants

instance (s : EventState) : Decidable (EventInv s) := by
  unfold EventInv; infer_instance

lemma create_enrollment_full (s : EventState) (u : Nat)
    (h : s.event.numParticipants ≤ s.event.numEnrolled) :
    create_enrollment u s = (s, Except.error EnrollError.capacityExceeded) := by
  unfold create_enrollment
  rw [if_pos h]

lemma create_enrollment_free_fresh (s : EventState) (u : Nat)
    (hlt : s.event.numEnrolled < s.event.numParticipants)
    (hnd : ∀ r ∈ s.rows, r.userId ≠ u) :
    create_enrollment u s =
      ({ event := { s.event with numEnrolled := s.event.numEnrolled + 1 },
         rows := s.rows ++ [⟨s.nextRowId, u⟩],
         permGrants := s.permGrants ++ [(u, s.nextRowId)],
         nextRowId := s.nextRowId + 1 },
       Except.ok s.nextRowId) := by
  have hany : s.rows.any (fun r => r.userId == u) = false := by
    rw [List.any_eq_false]
    intro r hr
    simpa using hnd r hr
  unfold create_enrollment
  rw [if_neg (by omega), if_neg (by simp [hany])]

/-- C1: `create_enrollment` fails with `CapacityExceeded` exactly when
`num_enrolled >= num_participants` at the serialization point, in which
case the state (rows, counter, grants) is unchanged; otherwise, for a
(user, event) request satisfying the contract's uniqueness precondition,
it creates the Enrollment row, increments `num_enrolled` by exactly 1 and
records the object-permission grant, all in one atomic state change. -/
theorem create_enrollment_admission_spec (s : EventState) (u : Nat) :
    (s.event.numParticipants ≤ s.event.numEnrolled →
      create_enrollment u s = (s, Except.error EnrollError.capacityExceeded)) ∧
    ((create_enrollment u s).2 = Except.error EnrollError.capacityExceeded →
      s.event.numParticipants ≤ s.event.numEnrolled) ∧
    (s.event.numEnrolled < s.event.numParticipants →
      (∀ r ∈ s.rows, r.userId ≠ u) →
      create_enrollment u s =
        ({ event := { s.event with numEnrolled := s.event.numEnrolled + 1 },
           rows := s.rows ++ [⟨s.nextRowId, u⟩],
           permGrants := s.permGrants ++ [(u, s.nextRowId)],
           nextRowId := s.nextRowId + 1 },
         Except.ok s.nextRowId)) := by
  refine ⟨create_enrollment_full s u, fun h => ?_,
    create_enrollment_free_fresh s u⟩
  by_contra hnle
  rw [create_enrollment] at h
  rw [if_neg hnle] at h
  split at h <;> simp_all

/-- Witness for C1 at Scenario A-style inputs: a full event rejects with
the state unchanged, and an event with one free seat admits user 2. -/
theorem create_enrollment_admission_spec_witness :
    ((⟨⟨2, 2⟩, [⟨0, 1⟩, ⟨1, 5⟩], [(1, 0), (5, 1)], 2⟩ :
        EventState).event.numParticipants ≤ 2 ∧
      create_enrollment 7 ⟨⟨2, 2⟩, [⟨0, 1⟩, ⟨1, 5⟩], [(1, 0), (5, 1)], 2⟩ =
        (⟨⟨2, 2⟩, [⟨0, 1⟩, ⟨1, 5⟩], [(1, 0), (5, 1)], 2⟩,
         Except.error EnrollError.capacityExceeded)) ∧
    create_enrollment 2 ⟨⟨2, 1⟩, [⟨0, 1⟩], [(1, 0)], 1⟩ =
      (⟨⟨2, 2⟩, [⟨0, 1⟩, ⟨1, 2⟩], [(1, 0), (2, 1)], 2⟩, Except.ok 1) :=
  ⟨⟨by decide,
    (create_enrollment_admission_spec ⟨⟨2, 2⟩, [⟨0, 1⟩, ⟨1, 5⟩],
      [(1, 0), (5, 1)], 2⟩ 7).1 (by decide)⟩,
   (create_enrollment_admission_spec ⟨⟨2, 1⟩, [⟨0, 1⟩], [(1, 0)], 1⟩ 2).2.2
     (by decide) (by decide)⟩

/-- C8: if the user already has an Enrollment row for the event and the
event still has free capacity, `create_enrollment` hits the
`unique_together {(campus_event, user)}` constraint: it fails with
`DuplicateEnrollment` and the transaction rollback leaves the state
(rows and `num_enrolled`) unchanged. -/
theorem create_enrollment_duplicate_spec (s : EventState) (u : Nat)
    (hmem : ∃ r ∈ s.rows, r.userId = u)
    (hfree : s.event.numEnrolled < s.event.numParticipants) :
    create_enrollment u s = (s, Except.error EnrollError.duplicateEnrollment) := by
  have hany : s.rows.any (fun r => r.userId == u) = true := by
    rcases hmem with ⟨r, hr, hru⟩
    exact List.any_eq_true.mpr ⟨r, hr, by simpa using hru⟩
  unfold create_enrollment
  rw [if_neg (by omega), if_pos (by simp [hany])]

/-- Witness for C8: user 1 is already enrolled in an event with one free
seat; re-enrolling fails with `DuplicateEnrollment`, state unchanged. -/
theorem create_enrollment_duplicate_spec_witness :
    create_enrollment 1 ⟨⟨2, 1⟩, [⟨0, 1⟩], [(1, 0)], 1⟩ =
      (⟨⟨2, 1⟩, [⟨0, 1⟩], [(1, 0)], 1⟩,
       Except.error EnrollError.duplicateEnrollment) :=
  create_enrollment_duplicate_spec ⟨⟨2, 1⟩, [⟨0, 1⟩], [(1, 0)], 1⟩ 1
    ⟨⟨0, 1⟩, by decide, rfl⟩ (by decide)

/-- C9: the capacity check at services.py line 81 precedes the row
creation at line 84 where the uniqueness constraint would fire, so a
duplicate request against a full event fails with the capacity error, not
the duplicate error, and changes no state. -/
theorem create_enrollment_capacity_checked_first (s : EventState) (u : Nat)
    (_hmem : ∃ r ∈ s.rows, r.userId = u)
    (hfull : s.event.numParticipants ≤ s.event.numEnrolled) :
    create_enrollment u s = (s, Except.error EnrollError.capacityExceeded) :=
  create_enrollment_full s u hfull

lemma create_step_inv (s : EventState) (u : Nat) (h : EventInv s) :
    EventInv (create_enrollment u s).1 := by
  obtain ⟨hc, hle⟩ := h
  unfold create_enrollment
  split
  · exact ⟨hc, hle⟩
  · split
    · exact ⟨hc, hle⟩
    · rename_i hfull _
      exact ⟨by simp [hc], by simp; omega⟩

lemma delete_step_inv (s : EventState) (eid : Nat) (h : EventInv s)
    (hmem : s.rows.any (fun r => r.rowId == eid) = true) :
    EventInv (delete_enrollment eid s) := by
  obtain ⟨hc, hle⟩ := h
  rw [List.any_eq_true] at hmem
  obtain ⟨r, hr, hp⟩ := hmem
  have hlen : (List.eraseP (fun r => r.rowId == eid) s.rows).length
      = s.rows.length - 1 := List.length_eraseP_of_mem hr hp
  refine ⟨?_, ?_⟩
  · show s.event.numEnrolled - 1
      = (s.rows.eraseP (fun r => r.rowId == eid)).length
    rw [hlen, hc]
  · show s.event.numEnrolled - 1 ≤ s.event.numParticipants
    omega

lemma applyEnrollOps_inv (s : EventState) (ops : List EnrollOp)
    (h : EventInv s) (hwf : wfTrace s ops = true) :
    EventInv (applyEnrollOps s ops) := by
  induction ops generalizing s with
  | nil => exact h
  | cons op ops ih =>
    unfold wfTrace at hwf
    rw [Bool.and_eq_true] at hwf
    obtain ⟨hop, hrest⟩ := hwf
    refine ih (applyEnrollOp s op) ?_ hrest
    cases op with
    | create u => exact create_step_inv s u h
    | del eid => exact delete_step_inv s eid h hop

/-- C2 counterexample: deleting the same enrollment twice — reachable
when two concurrent delete requests both fetch the instance before
either commits, since that fetch happens outside the event-row lock —
decrements `num_enrolled` twice while removing only one row: the
committed state has `num_enrolled = 0` but one persisted Enrollment row,
refuting the invariant claimed for all sequences. -/
theorem enrollment_invariant_claim_counterexample :
    applyEnrollOps ⟨⟨2, 0⟩, [], [], 0⟩
        [EnrollOp.create 1, EnrollOp.create 2, EnrollOp.del 0,
         EnrollOp.del 0]
      = ⟨⟨2, 0⟩, [⟨1, 2⟩], [(1, 0), (2, 1)], 2⟩ ∧
    ¬ EventInv (applyEnrollOps ⟨⟨2, 0⟩, [], [], 0⟩
        [EnrollOp.create 1, EnrollOp.create 2, EnrollOp.del 0,
         EnrollOp.del 0]) :=
  ⟨by decide, by decide⟩

/-- C2 (amended): for every sequence of `create_enrollment` /
`delete_enrollment` calls in which each delete targets an Enrollment row
still persisted at its serialization point, every committed state
satisfies `0 <= num_enrolled <= num_participants` with `num_enrolled`
equal to the number of persisted rows; such a delete atomically
decrements the counter by 1 and deletes exactly the given row.  Without
that restriction the invariant fails: `delete_enrollment` decrements
unconditionally even when the row is already gone. -/
theorem enrollment_capacity_invariant (s₀ : EventState) (h₀ : EventInv s₀) :
    (∀ ops : List EnrollOp, wfTrace s₀ ops = true →
      EventInv (applyEnrollOps s₀ ops)) ∧
    (∀ eid, (∃ r ∈ s₀.rows, r.rowId = eid) →
      (delete_enrollment eid s₀).event.numEnrolled
          = s₀.event.numEnrolled - 1 ∧
      (delete_enrollment eid s₀).rows
          = s₀.rows.eraseP (fun r => r.rowId == eid) ∧
      (delete_enrollment eid s₀).rows.length = s₀.rows.length - 1) := by
  refine ⟨fun ops hwf => applyEnrollOps_inv s₀ ops h₀ hwf,
    fun eid hmem => ?_⟩
  obtain ⟨r, hr, heq⟩ := hmem
  have hlen : (List.eraseP (fun r => r.rowId == eid) s₀.rows).length
      = s₀.rows.length - 1 :=
    List.length_eraseP_of_mem hr (by simpa using heq)
  exact ⟨rfl, rfl, hlen⟩

/-- Witness for the amended C2: create a second enrollment then delete
row 0 — a service-well-formed trace whose committed states satisfy the
invariant; the delete conjunct is exercised on the initial state. -/
theorem enrollment_capacity_invariant_witness :
    EventInv (applyEnrollOps ⟨⟨2, 1⟩, [⟨0, 1⟩], [(1, 0)], 1⟩
      [EnrollOp.create 2, EnrollOp.del 0]) ∧
    (delete_enrollment 0 ⟨⟨2, 1⟩, [⟨0, 1⟩], [(1, 0)], 1⟩).rows.length = 0 :=
  ⟨(enrollment_capacity_invariant ⟨⟨2, 1⟩, [⟨0, 1⟩], [(1, 0)], 1⟩
      (by decide)).1 [EnrollOp.create 2, EnrollOp.del 0] (by decide),
   ((enrollment_capacity_invariant ⟨⟨2, 1⟩, [⟨0, 1⟩], [(1, 0)], 1⟩
      (by decide)).2 0 ⟨⟨0, 1⟩, by decide, rfl⟩).2.2⟩

/-- Witness for C9: user 1 is already enrolled in a full event; the
repeated request reports `CapacityExceeded`. -/
theorem create_enrollment_capacity_checked_first_witness :
    create_enrollment 1 ⟨⟨1, 1⟩, [⟨0, 1⟩], [(1, 0)], 1⟩ =
      (⟨⟨1, 1⟩, [⟨0, 1⟩], [(1, 0)], 1⟩,
       Except.error EnrollError.capacityExceeded) :=
  create_enrollment_capacity_checked_first ⟨⟨1, 1⟩, [⟨0, 1⟩], [(1, 0)], 1⟩ 1
    ⟨⟨0, 1⟩, by decide, rfl⟩ (by decide)

/-! ## Record review state machine (`training_record/services.py`)

A `Record` references either a campus event or an off-campus event;
for the review operations only the nullity of `campus_event` matters, so
it is modelled as a Boolean flag.  `status` is the fixed enumeration of
`Record.STATUS_*` constants.  `StatusChangeLog` rows are append-only.
Django primary keys are unique; theorems that rely on `record.save()`
writing back by primary key therefore carry a `Nodup` hypothesis on the
stored ids. -/

inductive RecordStatus where
  | submitted
  | departmentAdminApproved
  | departmentAdminRejected
  | schoolAdminApproved
  | schoolAdminRejected
  | closed
  | feedbackRequired
  | feedbackSubmitted
  deriving Repr, DecidableEq

structure TRecord where
  pk : Nat
  hasCampusEvent : Bool
  status : RecordStatus
  deriving Repr, DecidableEq

structure ChangeLog where
  recordId : Nat
  preStatus : RecordStatus
  postStatus : RecordStatus
  userId : Nat
  time : Nat
  deriving Repr, DecidableEq

structure RecordState where
  records : List TRecord
  logs : List ChangeLog
  feedbacks : List (Nat × String)
  deriving Repr, DecidableEq

inductive ReviewError where
  | noSuchRecord
  | illegalTransition
  deriving Repr, DecidableEq

/-- `record.save()`: write the instance back over the row with the same
primary key. -/
def saveRecord (r : TRecord) (records : List TRecord) : List TRecord :=
  records.map (fun x => if x.pk == r.pk then r else x)

/-- The queryset `Record.objects.filter(pk=record_id,
campus_event__isnull=True)` used by both review services. -/
def offCampusByPk (recordId : Nat) (s : RecordState) : List TRecord :=
  s.records.filter (fun r => r.pk == recordId && !r.hasCampusEvent)

/-- `RecordService.department_admin_review` (services.py lines 146-179):
fails with 无此培训记录 (`NoSuchRecord`) unless exactly one off-campus
record matches the id, fails with 无权更改 (`IllegalTransition`) unless
its status is `SUBMITTED`; otherwise, atomically, sets the status to
`DEPARTMENT_ADMIN_APPROVED` / `DEPARTMENT_ADMIN_REJECTED` and appends one
`StatusChangeLog` row (pre=SUBMITTED, post=new status, user, time). -/
def department_admin_review (recordId : Nat) (isApproved : Bool)
    (userId time : Nat) (s : RecordState) :
    RecordState × Except ReviewError Unit :=
  match offCampusByPk recordId s with
  | [record] =>
    if record.status ≠ RecordStatus.submitted then
      (s, Except.error ReviewError.illegalTransition)
    else
      let newStatus := if isApproved then RecordStatus.departmentAdminApproved
        else RecordStatus.departmentAdminRejected
      ({ s with
         records := saveRecord { record with status := newStatus } s.records,
         logs := s.logs ++
           [⟨recordId, RecordStatus.submitted, newStatus, userId, time⟩] },
       Except.ok ())
  | _ => (s, Except.error ReviewError.noSuchRecord)

/-- `RecordService.school_admin_review` (services.py lines 181-214): same
shape, legal only from `DEPARTMENT_ADMIN_APPROVED`. -/
def school_admin_review (recordId : Nat) (isApproved : Bool)
    (userId time : Nat) (s : RecordState) :
    RecordState × Except ReviewError Unit :=
  match offCampusByPk recordId s with
  | [record] =>
    if record.status ≠ RecordStatus.departmentAdminApproved then
      (s, Except.error ReviewError.illegalTransition)
    else
      let newStatus := if isApproved then RecordStatus.schoolAdminApproved
        else RecordStatus.schoolAdminRejected
      ({ s with
         records := saveRecord { record with status := newStatus } s.records,
         logs := s.logs ++
           [⟨recordId, RecordStatus.departmentAdminApproved, newStatus,
             userId, time⟩] },
       Except.ok ())
  | _ => (s, Except.error ReviewError.noSuchRecord)

/-- Modelled from the spec: `RecordService.close_record` is not present in
`src/training_record/services.py`; only its tests are in the repository
(`training_record/tests/tests_services.py` lines 350-381).  Those tests
fix its behaviour: a campus-event record fails with 无此培训记录
(`NoSuchRecord`), an off-campus record with status `SCHOOL_ADMIN_APPROVED`
fails with 无权更改 (`IllegalTransition`), and an off-campus record with
status `DEPARTMENT_ADMIN_APPROVED` is moved to `CLOSED`.  The definition
mirrors the filter/guard shape of the two review services. -/
def close_record (recordId : Nat) (s : RecordState) :
    RecordState × Except ReviewError Unit :=
  match offCampusByPk recordId s with
  | [record] =>
    if record.status ≠ RecordStatus.departmentAdminApproved then
      (s, Except.error ReviewError.illegalTransition)
    else
      ({ s with
         records := saveRecord { record with status := RecordStatus.closed }
           s.records },
       Except.ok ())
  | _ => (s, Except.error ReviewError.noSuchRecord)

/-- `CampusEventFeedbackService.create_feedback` (services.py lines
217-229): fetch the record by primary key alone (no status or
campus-event guard), create the feedback row and set the record's status
to `FEEDBACK_SUBMITTED` in one transaction; no `StatusChangeLog` row is
written. -/
def create_feedback (recordId : Nat) (content : String) (s : RecordState) :
    Option RecordState :=
  match s.records.find? (fun r => r.pk == recordId) with
  | none => none
  | some related =>
    some { s with
           feedbacks := s.feedbacks ++ [(recordId, content)],
           records :=
             saveRecord { related with status := RecordStatus.feedbackSubmitted }
               s.records }

/-- After writing `record2` back over the unique row with its primary
key, the off-campus-by-pk queryset returns exactly the written row. -/
lemma filter_saveRecord (l : List TRecord) (record record2 : TRecord)
    (recordId : Nat) (hnd : (l.map (fun r => r.pk)).Nodup)
    (hf : l.filter (fun r => r.pk == recordId && !r.hasCampusEvent) = [record])
    (hpk : record2.pk = record.pk) (hcam : record2.hasCampusEvent = false) :
    (saveRecord record2 l).filter
      (fun r => r.pk == recordId && !r.hasCampusEvent) = [record2] := by
  have hprop : ((fun r : TRecord => r.pk == recordId && !r.hasCampusEvent)
      record) = true := by
    have : record ∈ l.filter (fun r => r.pk == recordId && !r.hasCampusEvent) := by
      rw [hf]; exact List.mem_singleton_self record
    exact (List.mem_filter.mp this).2
  have hrid : record.pk = recordId := by
    simp only [Bool.and_eq_true, beq_iff_eq] at hprop
    exact hprop.1
  induction l with
  | nil => simp at hf
  | cons x xs ih =>
    simp only [List.map_cons, List.nodup_cons] at hnd
    obtain ⟨hx, hndxs⟩ := hnd
    by_cases hpx : ((fun r : TRecord => r.pk == recordId && !r.hasCampusEvent)
        x) = true
    · rw [@List.filter_cons_of_pos TRecord
        (fun r => r.pk == recordId && !r.hasCampusEvent) x xs hpx] at hf
      obtain ⟨hxr, htail⟩ := List.cons_eq_cons.mp hf
      subst hxr
      have hsave : saveRecord record2 (x :: xs)
          = record2 :: saveRecord record2 xs := by
        unfold saveRecord
        rw [List.map_cons, if_pos (by simp [hpk])]
      rw [hsave]
      have hp2 : ((fun r : TRecord => r.pk == recordId && !r.hasCampusEvent)
          record2) = true := by
        simp [hpk, hrid, hcam]
      rw [@List.filter_cons_of_pos TRecord
        (fun r => r.pk == recordId && !r.hasCampusEvent) record2
        (saveRecord record2 xs) hp2]
      have hxs : saveRecord record2 xs = xs := by
        unfold saveRecord
        refine (List.map_congr_left ?_).trans (List.map_id' xs)
        intro y hy
        rw [if_neg ?_]
        intro hbe
        exact hx (by
          rw [List.mem_map]
          exact ⟨y, hy, by simpa [hpk] using (beq_iff_eq.mp hbe)⟩)
      rw [hxs, List.filter_eq_nil_iff.mpr]
      intro y hy hpy
      apply hx
      rw [List.mem_map]
      refine ⟨y, hy, ?_⟩
      simp only [Bool.and_eq_true, beq_iff_eq] at hpy
      rw [hpy.1, hrid]
    · rw [@List.filter_cons_of_neg TRecord
        (fun r => r.pk == recordId && !r.hasCampusEvent) x xs hpx] at hf
      have hrx : record ∈ xs := by
        have : record ∈ xs.filter
            (fun r => r.pk == recordId && !r.hasCampusEvent) := by
          rw [hf]; exact List.mem_singleton_self record
        exact List.mem_of_mem_filter this
      have hsave : saveRecord record2 (x :: xs)
          = x :: saveRecord record2 xs := by
        unfold saveRecord
        rw [List.map_cons, if_neg ?_]
        intro hbe
        exact hx (by
          rw [List.mem_map]
          refine ⟨record, hrx, ?_⟩
          simpa [hpk] using (beq_iff_eq.mp hbe).symm)
      rw [hsave, @List.filter_cons_of_neg TRecord
        (fun r => r.pk == recordId && !r.hasCampusEvent) x
        (saveRecord record2 xs) hpx]
      exact ih hndxs hf

lemma dar_noSuchRecord (recordId : Nat) (isApproved : Bool)
    (userId time : Nat) (s : RecordState)
    (hlen : (offCampusByPk recordId s).length ≠ 1) :
    department_admin_review recordId isApproved userId time s
      = (s, Except.error ReviewError.noSuchRecord) := by
  unfold department_admin_review
  rcases hl : offCampusByPk recordId s with _ | ⟨a, _ | ⟨b, tl⟩⟩
  · rfl
  · exact absurd (by rw [hl]; rfl) hlen
  · rfl

lemma dar_illegal (recordId : Nat) (isApproved : Bool) (userId time : Nat)
    (s : RecordState) (record : TRecord)
    (hf : offCampusByPk recordId s = [record])
    (hst : record.status ≠ RecordStatus.submitted) :
    department_admin_review recordId isApproved userId time s
      = (s, Except.error ReviewError.illegalTransition) := by
  unfold department_admin_review
  rw [hf]
  simp only [ne_eq, hst, not_false_eq_true, if_pos]

lemma dar_success (recordId : Nat) (isApproved : Bool) (userId time : Nat)
    (s : RecordState) (record : TRecord)
    (hf : offCampusByPk recordId s = [record])
    (hst : record.status = RecordStatus.submitted) :
    department_admin_review recordId isApproved userId time s
      = ({ s with
           records := saveRecord
             { record with status :=
                 if isApproved then RecordStatus.departmentAdminApproved
                 else RecordStatus.departmentAdminRejected } s.records,
           logs := s.logs ++
             [⟨recordId, RecordStatus.submitted,
               (if isApproved then RecordStatus.departmentAdminApproved
                else RecordStatus.departmentAdminRejected), userId, time⟩] },
         Except.ok ()) := by
  unfold department_admin_review
  rw [hf]
  simp only [ne_eq, hst, not_true_eq_false, if_neg]
  rw [if_neg not_false]

/-- C3: `department_admin_review` succeeds exactly on a unique matching
off-campus record in status `SUBMITTED`: a missing id or a campus-event
record gives `NoSuchRecord` (the queryset is empty, or more generally not
a singleton), any other status gives `IllegalTransition`, and on success
the status becomes `DEPARTMENT_ADMIN_APPROVED` / `DEPARTMENT_ADMIN_REJECTED`
with exactly one `StatusChangeLog` row (pre=SUBMITTED, post=new status,
actor, timestamp) appended atomically; a second call on the same record
fails and appends no further log row. -/
theorem department_admin_review_spec (recordId : Nat) (isApproved : Bool)
    (userId time : Nat) (s : RecordState)
    (hnd : (s.records.map (fun r => r.pk)).Nodup) :
    ((offCampusByPk recordId s).length ≠ 1 →
      department_admin_review recordId isApproved userId time s
        = (s, Except.error ReviewError.noSuchRecord)) ∧
    (∀ record, offCampusByPk recordId s = [record] →
      record.status ≠ RecordStatus.submitted →
      department_admin_review recordId isApproved userId time s
        = (s, Except.error ReviewError.illegalTransition)) ∧
    (∀ record, offCampusByPk recordId s = [record] →
      record.status = RecordStatus.submitted →
      ∃ s', department_admin_review recordId isApproved userId time s
          = (s', Except.ok ()) ∧
        s'.records = saveRecord
          { record with status :=
              if isApproved then RecordStatus.departmentAdminApproved
              else RecordStatus.departmentAdminRejected } s.records ∧
        s'.logs = s.logs ++
          [⟨recordId, RecordStatus.submitted,
            (if isApproved then RecordStatus.departmentAdminApproved
             else RecordStatus.departmentAdminRejected), userId, time⟩] ∧
        s'.feedbacks = s.feedbacks ∧
        (∀ b2 u2 t2, department_admin_review recordId b2 u2 t2 s'
            = (s', Except.error ReviewError.illegalTransition))) := by
  refine ⟨dar_noSuchRecord recordId isApproved userId time s,
    fun record hf hst => dar_illegal recordId isApproved userId time s record hf hst,
    fun record hf hst => ?_⟩
  have hcam : record.hasCampusEvent = false := by
    have hmem : record ∈ offCampusByPk recordId s := by
      rw [hf]; exact List.mem_singleton_self record
    have := (List.mem_filter.mp hmem).2
    simp only [Bool.and_eq_true, Bool.not_eq_eq_eq_not, Bool.not_true] at this
    exact this.2
  refine ⟨_, dar_success recordId isApproved userId time s record hf hst,
    rfl, rfl, rfl, ?_⟩
  intro b2 u2 t2
  have hf2 : offCampusByPk recordId
      { s with
        records := saveRecord
          { record with status :=
              if isApproved then RecordStatus.departmentAdminApproved
              else RecordStatus.departmentAdminRejected } s.records,
        logs := s.logs ++
          [⟨recordId, RecordStatus.submitted,
            (if isApproved then RecordStatus.departmentAdminApproved
             else RecordStatus.departmentAdminRejected), userId, time⟩] }
      = [{ record with status :=
          if isApproved then RecordStatus.departmentAdminApproved
          else RecordStatus.departmentAdminRejected }] := by
    unfold offCampusByPk
    exact filter_saveRecord s.records record _ recordId hnd hf rfl hcam
  exact dar_illegal recordId b2 u2 t2 _ _ hf2 (by cases isApproved <;> simp)

/-- Witness for C3: a single off-campus SUBMITTED record with pk 1 is
approved; the resulting state carries the new status and exactly one log
row, and a second review call fails. -/
theorem department_admin_review_spec_witness :
    ∃ s', department_admin_review 1 true 9 0
        ⟨[⟨1, false, RecordStatus.submitted⟩], [], []⟩ = (s', Except.ok ()) ∧
      s'.records = saveRecord
        { pk := 1, hasCampusEvent := false,
          status := if true then RecordStatus.departmentAdminApproved
            else RecordStatus.departmentAdminRejected }
        [⟨1, false, RecordStatus.submitted⟩] ∧
      s'.logs = [] ++
        [⟨1, RecordStatus.submitted,
          (if true then RecordStatus.departmentAdminApproved
           else RecordStatus.departmentAdminRejected), 9, 0⟩] ∧
      s'.feedbacks = [] ∧
      (∀ b2 u2 t2, department_admin_review 1 b2 u2 t2 s'
          = (s', Except.error ReviewError.illegalTransition)) :=
  (department_admin_review_spec 1 true 9 0
      ⟨[⟨1, false, RecordStatus.submitted⟩], [], []⟩ (by decide)).2.2
    ⟨1, false, RecordStatus.submitted⟩ rfl rfl

lemma close_noSuchRecord (recordId : Nat) (s : RecordState)
    (hlen : (offCampusByPk recordId s).length ≠ 1) :
    close_record recordId s = (s, Except.error ReviewError.noSuchRecord) := by
  unfold close_record
  rcases hl : offCampusByPk recordId s with _ | ⟨a, _ | ⟨b, tl⟩⟩
  · rfl
  · exact absurd (by rw [hl]; rfl) hlen
  · rfl

lemma close_illegal (recordId : Nat) (s : RecordState) (record : TRecord)
    (hf : offCampusByPk recordId s = [record])
    (hst : record.status ≠ RecordStatus.departmentAdminApproved) :
    close_record recordId s = (s, Except.error ReviewError.illegalTransition) := by
  unfold close_record
  rw [hf]
  simp only [ne_eq, hst, not_false_eq_true, if_pos]

/-- C6 counterexample: on an off-campus record in status
`SCHOOL_ADMIN_APPROVED` (where the claim says closing is legal),
`close_record` fails with `IllegalTransition`, while on
`DEPARTMENT_ADMIN_APPROVED` (where the claim says it must fail) it
succeeds and closes the record — exactly as the repository's tests
`test_close_record_no_permission` / `test_close_record_succeed` demand. -/
theorem close_record_claim_counterexample :
    close_record 1 ⟨[⟨1, false, RecordStatus.schoolAdminApproved⟩], [], []⟩
        = (⟨[⟨1, false, RecordStatus.schoolAdminApproved⟩], [], []⟩,
           Except.error ReviewError.illegalTransition) ∧
    close_record 1 ⟨[⟨1, false, RecordStatus.departmentAdminApproved⟩], [], []⟩
        = (⟨[⟨1, false, RecordStatus.closed⟩], [], []⟩, Except.ok ()) :=
  ⟨rfl, rfl⟩

/-- C6 (amended): `close_record` is legal only when the record's current
status is `DEPARTMENT_ADMIN_APPROVED` (not `SCHOOL_ADMIN_APPROVED`), and
on success moves the off-campus record to `CLOSED`; a non-singleton
queryset gives `NoSuchRecord` and any other status `IllegalTransition`. -/
theorem close_record_spec (recordId : Nat) (s : RecordState) :
    ((offCampusByPk recordId s).length ≠ 1 →
      close_record recordId s = (s, Except.error ReviewError.noSuchRecord)) ∧
    (∀ record, offCampusByPk recordId s = [record] →
      record.status ≠ RecordStatus.departmentAdminApproved →
      close_record recordId s
        = (s, Except.error ReviewError.illegalTransition)) ∧
    (∀ record, offCampusByPk recordId s = [record] →
      record.status = RecordStatus.departmentAdminApproved →
      close_record recordId s
        = ({ s with
             records := saveRecord
               { record with status := RecordStatus.closed } s.records },
           Except.ok ())) := by
  refine ⟨close_noSuchRecord recordId s,
    fun record hf hst => close_illegal recordId s record hf hst,
    fun record hf hst => ?_⟩
  unfold close_record
  rw [hf]
  simp only [ne_eq, hst, not_true_eq_false, if_neg]
  rw [if_neg not_false]

/-- Witness for the amended C6: a campus record with the same id is
rejected, and an off-campus `DEPARTMENT_ADMIN_APPROVED` record with pk 2
is closed. -/
theorem close_record_spec_witness :
    close_record 1 ⟨[⟨1, true, RecordStatus.departmentAdminApproved⟩], [], []⟩
        = (⟨[⟨1, true, RecordStatus.departmentAdminApproved⟩], [], []⟩,
           Except.error ReviewError.noSuchRecord) ∧
    close_record 2 ⟨[⟨2, false, RecordStatus.departmentAdminApproved⟩], [], []⟩
        = ({ records := saveRecord ⟨2, false, RecordStatus.closed⟩
               [⟨2, false, RecordStatus.departmentAdminApproved⟩],
             logs := [], feedbacks := [] }, Except.ok ()) :=
  ⟨(close_record_spec 1
      ⟨[⟨1, true, RecordStatus.departmentAdminApproved⟩], [], []⟩).1
      (by decide),
   (close_record_spec 2
      ⟨[⟨2, false, RecordStatus.departmentAdminApproved⟩], [], []⟩).2.2
      ⟨2, false, RecordStatus.departmentAdminApproved⟩ rfl rfl⟩

/-- C10: `create_feedback` checks no precondition on the record's status:
for any record found by primary key — off-campus records at any pipeline
stage included — it appends the feedback row and sets the record's status
to `FEEDBACK_SUBMITTED` in one atomic state change, and appends no
`StatusChangeLog` entry. -/
theorem create_feedback_no_precondition (recordId : Nat) (content : String)
    (s : RecordState) (related : TRecord)
    (hfind : s.records.find? (fun r => r.pk == recordId) = some related) :
    create_feedback recordId content s
      = some { s with
          feedbacks := s.feedbacks ++ [(recordId, content)],
          records := saveRecord
            { related with status := RecordStatus.feedbackSubmitted }
            s.records } ∧
    (create_feedback recordId content s).map (fun s2 => s2.logs)
      = some s.logs := by
  unfold create_feedback
  rw [hfind]
  exact ⟨rfl, rfl⟩

/-- Witness for C10: feedback on an off-campus record sitting at
`SCHOOL_ADMIN_APPROVED` still succeeds and logs nothing. -/
theorem create_feedback_no_precondition_witness :
    create_feedback 1 "fine" ⟨[⟨1, false, RecordStatus.schoolAdminApproved⟩],
        [], []⟩
      = some { records := saveRecord ⟨1, false, RecordStatus.feedbackSubmitted⟩
                 [⟨1, false, RecordStatus.schoolAdminApproved⟩],
               logs := [], feedbacks := [] ++ [(1, "fine")] } ∧
    (create_feedback 1 "fine" ⟨[⟨1, false, RecordStatus.schoolAdminApproved⟩],
        [], []⟩).map (fun s2 => s2.logs) = some [] :=
  create_feedback_no_precondition 1 "fine"
    ⟨[⟨1, false, RecordStatus.schoolAdminApproved⟩], [], []⟩
    ⟨1, false, RecordStatus.schoolAdminApproved⟩ rfl

/-! ## Department/group synchronization (`auth/tasks.py`)

Group names are Python strings manipulated by `startswith` and
`split('-')`; they are modelled as `List Char` so that the splitting
logic is fully computable.  `splitDash` is Python's `split('-')` and
`beginsWith` is Python's `startswith`. -/

/-- Python `s.split('-')`. -/
def splitDash : List Char → List (List Char)
  | [] => [[]]
  | c :: cs =>
    let rest := splitDash cs
    if c = '-' then [] :: rest
    else match rest with
      | [] => [[c]]
      | r :: rs => (c :: r) :: rs

/-- Python `s.startswith(p)` (`beginsWith p s`). -/
def beginsWith : List Char → List Char → Bool
  | [], _ => true
  | _ :: _, [] => false
  | p :: ps, c :: cs => (p == c) && beginsWith ps cs

/-- A `django.contrib.auth.models.Group` together with its membership
rows and permission grants. -/
structure PyGroup where
  name : List Char
  members : List Nat
  perms : List (List Char)
  deriving Repr, DecidableEq

inductive SyncError where
  | valueError
  deriving Repr, DecidableEq

/-- The filter key `f'{department.name}-{department.raw_department_id}-'`
of tasks.py lines 120-124. -/
def groupNameKey (deptName rawId : List Char) : List Char :=
  deptName ++ ['-'] ++ rawId ++ ['-']

/-- One group's rename step (tasks.py lines 125-128): a group whose name
starts with the old key is unpacked by `group.name.split('-')` into
exactly three parts (anything else raises `ValueError`, aborting the
surrounding transaction) and renamed to `f'{dwmc}-{dwid}-{suffix}'`;
only the `name` field is written. -/
def renameGroup (newName oldKey : List Char) (g : PyGroup) :
    Except SyncError PyGroup :=
  if beginsWith oldKey g.name then
    match splitDash g.name with
    | [_, dwid, suffix] =>
      Except.ok { g with name := newName ++ ['-'] ++ dwid ++ ['-'] ++ suffix }
    | _ => Except.error SyncError.valueError
  else Except.ok g

/-- The rename loop of `_update_from_department_information` for a
department whose display name changed (tasks.py lines 119-130), over the
whole group table: `related_groups` are exactly the groups whose name
starts with the old `(name, id)` key and each is renamed in place. -/
def rename_department_groups (oldName newName rawId : List Char) :
    List PyGroup → Except SyncError (List PyGroup)
  | [] => Except.ok []
  | g :: gs => do
    let g2 ← renameGroup newName (groupNameKey oldName rawId) g
    let gs2 ← rename_department_groups oldName newName rawId gs
    Except.ok (g2 :: gs2)

/-- C7: when a department's display name changes, every
`AuthorizationGroup` whose name embeds the old `(name, id)` pair is
renamed to embed the new name with the same embedded id and role suffix,
and every other group is untouched; membership rows and permission grants
of all groups are left unchanged — only the `name` field changes. -/
theorem rename_department_groups_spec (oldName newName rawId : List Char)
    (gs : List PyGroup)
    (hwf : ∀ g ∈ gs,
      beginsWith (groupNameKey oldName rawId) g.name = true →
      splitDash g.name = [oldName, rawId, (splitDash g.name).getD 2 []]) :
    ∃ gs2, rename_department_groups oldName newName rawId gs
        = Except.ok gs2 ∧
      List.Forall₂ (fun g g2 =>
        g2.members = g.members ∧ g2.perms = g.perms ∧
        (if beginsWith (groupNameKey oldName rawId) g.name = true
         then g2.name = newName ++ ['-'] ++ rawId ++ ['-'] ++
           (splitDash g.name).getD 2 []
         else g2 = g)) gs gs2 := by
  induction gs with
  | nil => exact ⟨[], rfl, List.Forall₂.nil⟩
  | cons g gs ih =>
    obtain ⟨gs2, hgs2, hall⟩ :=
      ih (fun x hx => hwf x (List.mem_cons_of_mem g hx))
    by_cases hsw : beginsWith (groupNameKey oldName rawId) g.name = true
    · have hsp := hwf g (List.mem_cons_self g gs) hsw
      refine ⟨{ g with name := newName ++ ['-'] ++ rawId ++ ['-'] ++
          (splitDash g.name).getD 2 [] } :: gs2, ?_, ?_⟩
      · unfold rename_department_groups renameGroup
        rw [if_pos hsw, hsp, hgs2]
        rfl
      · exact List.Forall₂.cons ⟨rfl, rfl, by rw [if_pos hsw]⟩ hall
    · refine ⟨g :: gs2, ?_, ?_⟩
      · unfold rename_department_groups renameGroup
        rw [if_neg hsw, hgs2]
        rfl
      · exact List.Forall₂.cons ⟨rfl, rfl, by rw [if_neg hsw]⟩ hall

/-- Witness for C7 at Scenario D: renaming 创新创业学院 (id 22) to 新学院
renames its two groups, keeping members and grants; the unrelated
personal-permission group is untouched. -/
theorem rename_department_groups_spec_witness :
    ∃ gs2, rename_department_groups "创新创业学院".data "新学院".data "22".data
        [⟨"创新创业学院-22-管理员".data, [1, 2], ["add_campusevent".data]⟩,
         ⟨"创新创业学院-22-专任教师".data, [3], []⟩,
         ⟨"个人权限".data, [4], []⟩]
        = Except.ok gs2 ∧
      List.Forall₂ (fun g g2 =>
        g2.members = g.members ∧ g2.perms = g.perms ∧
        (if beginsWith (groupNameKey "创新创业学院".data "22".data) g.name = true
         then g2.name = "新学院".data ++ ['-'] ++ "22".data ++ ['-'] ++
           (splitDash g.name).getD 2 []
         else g2 = g))
        [⟨"创新创业学院-22-管理员".data, [1, 2], ["add_campusevent".data]⟩,
         ⟨"创新创业学院-22-专任教师".data, [3], []⟩,
         ⟨"个人权限".data, [4], []⟩] gs2 :=
  rename_department_groups_spec "创新创业学院".data "新学院".data "22".data
    [⟨"创新创业学院-22-管理员".data, [1, 2], ["add_campusevent".data]⟩,
     ⟨"创新创业学院-22-专任教师".data, [3], []⟩,
     ⟨"个人权限".data, [4], []⟩]
    (by decide)

/-! ## User member-group chains (`auth/tasks.py` lines 20-27, 186-194)

Departments are indexed by their Django primary key; `parentOf` is the
`super_department` foreign key, `rawOf` the external id string
`raw_department_id` and `nameOf` the display name.  The root is the
record for 大连理工大学 (DLUT). -/

/-- `f'{dep.name}-{dep.raw_department_id}-专任教师'`. -/
def memberGroupName (nameOf rawOf : Nat → List Char) (d : Nat) : List Char :=
  nameOf d ++ ['-'] ++ rawOf d ++ ['-'] ++ "专任教师".data

/-- `update_user_groups` (tasks.py lines 20-27): handle the member group
of every department on the `super_department` chain from `dep` while its
`raw_department_id` differs from DLUT's, then handle the group of the
department where the walk stopped (the root itself).  A chain that never
reaches the root loops forever or dereferences a missing parent, modelled
as `none`. -/
def update_user_groups (parentOf : Nat → Option Nat)
    (nameOf rawOf : Nat → List Char) (dlut : Nat) :
    Nat → Nat → Option (List (List Char))
  | 0, _ => none
  | fuel + 1, d =>
    if rawOf d == rawOf dlut then some [memberGroupName nameOf rawOf d]
    else match parentOf d with
      | none => none
      | some p =>
        (update_user_groups parentOf nameOf rawOf dlut fuel p).map
          (fun l => memberGroupName nameOf rawOf d :: l)

/-- `user.groups.add`: Django m2m add is a no-op when the membership row
already exists. -/
def addGroup (gs : List (List Char)) (g : List Char) : List (List Char) :=
  if g ∈ gs then gs else gs ++ [g]

def addGroups (gs : List (List Char)) (added : List (List Char)) :
    List (List Char) :=
  added.foldl addGroup gs

/-- `user.groups.remove` over a handled list of groups. -/
def removeGroups (gs removed : List (List Char)) : List (List Char) :=
  gs.filter (fun g => !removed.contains g)

/-- The department-changed branch of `_update_from_teacher_information`
(tasks.py lines 186-194): if the user had a department, remove the member
groups along its chain; then set the new department, look up its
administrative department, and add the member groups along the new
chain.  Returns the user's group list and administrative department. -/
def syncUserDepartment (parentOf : Nat → Option Nat)
    (nameOf rawOf : Nat → List Char) (dlut fuel : Nat)
    (adminOf : Nat → Nat) (groups : List (List Char))
    (oldDept : Option Nat) (newDept : Nat) :
    Option (List (List Char) × Nat) :=
  match oldDept with
  | some od =>
    match update_user_groups parentOf nameOf rawOf dlut fuel od with
    | none => none
    | some removeList =>
      match update_user_groups parentOf nameOf rawOf dlut fuel newDept with
      | none => none
      | some addList =>
        some (addGroups (removeGroups groups removeList) addList,
          adminOf newDept)
  | none =>
    match update_user_groups parentOf nameOf rawOf dlut fuel newDept with
    | none => none
    | some addList => some (addGroups groups addList, adminOf newDept)

/-- The `super_department` chain from a department up to and including
the first department whose `raw_department_id` equals the root's. -/
inductive DeptChain (parentOf : Nat → Option Nat)
    (rawOf : Nat → List Char) (dlut : Nat) : Nat → List Nat → Prop
  | root (d : Nat) : rawOf d = rawOf dlut →
      DeptChain parentOf rawOf dlut d [d]
  | step (d p : Nat) (ds : List Nat) : rawOf d ≠ rawOf dlut →
      parentOf d = some p → DeptChain parentOf rawOf dlut p ds →
      DeptChain parentOf rawOf dlut d (d :: ds)

lemma update_user_groups_of_chain (parentOf : Nat → Option Nat)
    (nameOf rawOf : Nat → List Char) (dlut : Nat) (fuel d : Nat)
    (ds : List Nat) (hc : DeptChain parentOf rawOf dlut d ds)
    (hfuel : ds.length ≤ fuel) :
    update_user_groups parentOf nameOf rawOf dlut fuel d
      = some (ds.map (memberGroupName nameOf rawOf)) := by
  induction hc generalizing fuel with
  | root d hd =>
    cases fuel with
    | zero => simp at hfuel
    | succ fuel =>
      unfold update_user_groups
      rw [if_pos (by simpa using hd)]
      rfl
  | step d p ds hne hp _ ih =>
    cases fuel with
    | zero => simp at hfuel
    | succ fuel =>
      unfold update_user_groups
      rw [if_neg (by simpa using hne), hp]
      show (update_user_groups parentOf nameOf rawOf dlut fuel p).map
          (fun l => memberGroupName nameOf rawOf d :: l)
        = some (List.map (memberGroupName nameOf rawOf) (d :: ds))
      rw [ih fuel (by simpa using Nat.le_of_succ_le_succ hfuel)]
      rfl

lemma mem_addGroup_left (gs : List (List Char)) (g x : List Char)
    (h : g ∈ gs) : g ∈ addGroup gs x := by
  unfold addGroup
  split
  · exact h
  · exact List.mem_append_left _ h

lemma mem_addGroup_self (gs : List (List Char)) (g : List Char) :
    g ∈ addGroup gs g := by
  unfold addGroup
  split
  · assumption
  · exact List.mem_append_right _ (List.mem_singleton_self g)

lemma mem_addGroups_of_base (gs added : List (List Char)) (g : List Char)
    (h : g ∈ gs) : g ∈ addGroups gs added := by
  induction added generalizing gs with
  | nil => exact h
  | cons x xs ih => exact ih (addGroup gs x) (mem_addGroup_left gs g x h)

lemma mem_addGroups (gs added : List (List Char)) (g : List Char)
    (h : g ∈ added) : g ∈ addGroups gs added := by
  induction added generalizing gs with
  | nil => simp at h
  | cons x xs ih =>
    rcases List.mem_cons.mp h with rfl | hx
    · exact mem_addGroups_of_base (addGroup gs g) xs g (mem_addGroup_self gs g)
    · exact ih (addGroup gs x) hx

/-- C5 counterexample: the root 大连理工大学 (key 0, raw id 10141) has the
direct child CS (key 1, raw id 10), so CS is its own administrative
department and the chain from CS to its administrative department is just
[CS].  Syncing a user into CS nevertheless adds the root's member group
大连理工大学-10141-专任教师, a "-member" group strictly above the user's
administrative department, so membership does not stop at the
administrative department. -/
theorem sync_user_groups_claim_counterexample :
    (syncUserDepartment
        (fun d => if d = 1 then some 0 else none)
        (fun d => if d = 1 then "CS".data else "大连理工大学".data)
        (fun d => if d = 1 then "10".data else "10141".data)
        0 5 (fun _ => 1) ["个人权限".data] none 1).map Prod.fst
      = some ["个人权限".data, "CS-10-专任教师".data,
          "大连理工大学-10141-专任教师".data] ∧
    (fun (_ : Nat) => 1) 1 = 1 ∧
    memberGroupName
        (fun d => if d = 1 then "CS".data else "大连理工大学".data)
        (fun d => if d = 1 then "10".data else "10141".data) 0
      = "大连理工大学-10141-专任教师".data ∧
    "大连理工大学-10141-专任教师".data
      ≠ memberGroupName
        (fun d => if d = 1 then "CS".data else "大连理工大学".data)
        (fun d => if d = 1 then "10".data else "10141".data) 1 := by
  refine ⟨by decide, rfl, by decide, by decide⟩

/-- C5 (amended): after the user sync pass, a user whose department
changed holds the "-member" (专任教师) group of every department on the
chain from their direct department all the way up to and including the
root 大连理工大学 — not stopping at the administrative department — with
the member groups of the previous department's chain removed first. -/
theorem sync_user_groups_chain_spec (parentOf : Nat → Option Nat)
    (nameOf rawOf : Nat → List Char) (dlut fuel : Nat)
    (adminOf : Nat → Nat) (groups : List (List Char)) (od newDept : Nat)
    (odc ndc : List Nat)
    (hoc : DeptChain parentOf rawOf dlut od odc)
    (hnc : DeptChain parentOf rawOf dlut newDept ndc)
    (hof : odc.length ≤ fuel) (hnf : ndc.length ≤ fuel) :
    syncUserDepartment parentOf nameOf rawOf dlut fuel adminOf groups
        (some od) newDept
      = some (addGroups
          (removeGroups groups (odc.map (memberGroupName nameOf rawOf)))
          (ndc.map (memberGroupName nameOf rawOf)), adminOf newDept) ∧
    (∀ dep ∈ ndc, memberGroupName nameOf rawOf dep ∈
      addGroups
        (removeGroups groups (odc.map (memberGroupName nameOf rawOf)))
        (ndc.map (memberGroupName nameOf rawOf))) ∧
    (∃ dRoot ∈ ndc, rawOf dRoot = rawOf dlut) := by
  have h1 := update_user_groups_of_chain parentOf nameOf rawOf dlut fuel od
    odc hoc hof
  have h2 := update_user_groups_of_chain parentOf nameOf rawOf dlut fuel
    newDept ndc hnc hnf
  refine ⟨?_, ?_, ?_⟩
  · simp only [syncUserDepartment, h1, h2]
  · intro dep hdep
    exact mem_addGroups _ _ _ (List.mem_map_of_mem _ hdep)
  · clear h1 h2 hnf
    induction hnc with
    | root d hd => exact ⟨d, List.mem_singleton_self d, hd⟩
    | step d p ds _ _ _ ih =>
      obtain ⟨dr, hdr, hraw⟩ := ih
      exact ⟨dr, List.mem_cons_of_mem d hdr, hraw⟩

/-- Witness for the amended C5: a user moves from AI-Lab (raw 100, child
of CS) to CS (raw 10, child of the root); the AI-Lab chain groups are
removed and the CS chain groups — including the root's — are added. -/
theorem sync_user_groups_chain_spec_witness :
    syncUserDepartment
        (fun d => if d = 1 then some 0 else if d = 2 then some 1 else none)
        (fun d => if d = 1 then "CS".data
          else if d = 2 then "AI".data else "大连理工大学".data)
        (fun d => if d = 1 then "10".data
          else if d = 2 then "100".data else "10141".data)
        0 5 (fun _ => 1) ["个人权限".data] (some 2) 1
      = some (addGroups
          (removeGroups ["个人权限".data]
            ([2, 1, 0].map (memberGroupName
              (fun d => if d = 1 then "CS".data
                else if d = 2 then "AI".data else "大连理工大学".data)
              (fun d => if d = 1 then "10".data
                else if d = 2 then "100".data else "10141".data))))
          ([1, 0].map (memberGroupName
            (fun d => if d = 1 then "CS".data
              else if d = 2 then "AI".data else "大连理工大学".data)
            (fun d => if d = 1 then "10".data
              else if d = 2 then "100".data else "10141".data))),
          (fun (_ : Nat) => 1) 1) :=
  (sync_user_groups_chain_spec
    (fun d => if d = 1 then some 0 else if d = 2 then some 1 else none)
    (fun d => if d = 1 then "CS".data
      else if d = 2 then "AI".data else "大连理工大学".data)
    (fun d => if d = 1 then "10".data
      else if d = 2 then "100".data else "10141".data)
    0 5 (fun _ => 1) ["个人权限".data] 2 1 [2, 1, 0] [1, 0]
    (DeptChain.step 2 1 [1, 0] (by decide) (by decide)
      (DeptChain.step 1 0 [0] (by decide) (by decide)
        (DeptChain.root 0 (by decide))))
    (DeptChain.step 1 0 [0] (by decide) (by decide)
      (DeptChain.root 0 (by decide)))
    (by decide) (by decide)).1

/-! ## Administrative departments (`auth/tasks.py` lines 44-55, 133-147)

`_update_from_department_information` first assigns, per synced
department, an initial administrative department — the department itself
when its `super_department` or its grandparent is DLUT, else its
`super_department` — and then `update_administrative` chases these
pointers to a fixpoint, memoizing along the walked path.  The dict
`department_id_to_administrative` is modelled as an association list over
department keys; `ds` lists the synced departments (the feed excludes
DLUT itself). -/

def alookup (m : List (Nat × Nat)) (k : Nat) : Option Nat :=
  (m.find? (fun pr => pr.1 == k)).map Prod.snd

/-- Lines 133-141: `dlut in (department.super_department,
department.super_department.super_department)` decides whether the
department is its own administrative department; otherwise the
super-department is recorded.  A missing `super_department` would raise,
modelled as `none`. -/
def initialAdministrative (parentOf : Nat → Option Nat) (root d : Nat) :
    Option Nat :=
  match parentOf d with
  | none => none
  | some p =>
    if p = root ∨ parentOf p = some root then some d else some p

/-- The loop of lines 79-141 restricted to the map construction: one
entry per synced department. -/
def buildInitial (parentOf : Nat → Option Nat) (root : Nat) :
    List Nat → Option (List (Nat × Nat))
  | [] => some []
  | d :: rest =>
    match initialAdministrative parentOf root d with
    | none => none
    | some a =>
      match buildInitial parentOf root rest with
      | none => none
      | some m => some ((d, a) :: m)

/-- The `while administrative.id != department_id` loop of
`update_administrative` (lines 49-52): follow the map from `d`,
collecting the keys visited before the fixpoint, and return them with the
fixpoint.  A missing key (Python `KeyError`) or a diverging chain is
`none`. -/
def chaseLoop (m : List (Nat × Nat)) : Nat → Nat → Option (List Nat × Nat)
  | 0, _ => none
  | fuel + 1, d =>
    match alookup m d with
    | none => none
    | some a =>
      if a = d then some ([], a)
      else (chaseLoop m fuel a).map (fun r => (d :: r.1, r.2))

/-- Lines 53-54: `for item_id in same_administrative:
m[item_id] = administrative`. -/
def setAll (m : List (Nat × Nat)) (path : List Nat) (a : Nat) :
    List (Nat × Nat) :=
  m.map (fun pr => if pr.1 ∈ path then (pr.1, a) else pr)

/-- `update_administrative` (lines 44-55): iterate the chase over every
key of the dict, memoizing resolved values. -/
def update_administrative (fuel : Nat) :
    List Nat → List (Nat × Nat) → Option (List (Nat × Nat))
  | [], m => some m
  | d :: rest, m =>
    match chaseLoop m fuel d with
    | none => none
    | some (path, a) => update_administrative fuel rest (setAll m path a)

/-- The complete administrative-department computation of one sync pass:
initial assignment (lines 79-141) followed by the fixpoint pass
(lines 146-147). -/
def computeAdministrative (parentOf : Nat → Option Nat) (root : Nat)
    (ds : List Nat) : Option (List (Nat × Nat)) :=
  match buildInitial parentOf root ds with
  | none => none
  | some m0 => update_administrative (ds.length + 1) ds m0

/-- C4 counterexample, Scenario B's forest: the root 大连理工大学 (key 1),
its direct child CS (key 10) and the third-level AI-Lab (key 100, child
of CS).  The claim says administrative_department(AI-Lab) == CS, but the
code makes every department whose grandparent is the root its own
administrative department: the computed map sends 100 to 100, not 10. -/
theorem administrative_claim_counterexample :
    computeAdministrative
        (fun d => if d = 10 then some 1 else if d = 100 then some 10 else none)
        1 [10, 100]
      = some [(10, 10), (100, 100)] ∧
    alookup [(10, 10), (100, 100)] 100 = some 100 ∧
    ¬ alookup [(10, 10), (100, 100)] 100 = some 10 := by
  refine ⟨by decide, by decide, by decide⟩

/-- The specification-side administrative relation: a department whose
parent or grandparent is the root is its own administrative department;
any other department inherits its parent's.  Its unique solution is "the
nearest ancestor that is a top-three-levels node". -/
inductive AdminRel (parentOf : Nat → Option Nat) (root : Nat) :
    Nat → Nat → Prop
  | self (d p : Nat) : parentOf d = some p →
      (p = root ∨ parentOf p = some root) → AdminRel parentOf root d d
  | up (d p a : Nat) : parentOf d = some p →
      ¬(p = root ∨ parentOf p = some root) →
      AdminRel parentOf root p a → AdminRel parentOf root d a

lemma adminRel_det (parentOf : Nat → Option Nat) (root : Nat) :
    ∀ {d a b}, AdminRel parentOf root d a → AdminRel parentOf root d b →
      a = b := by
  intro d a b h1 h2
  induction h1 generalizing b with
  | self d p hp hc =>
    cases h2 with
    | self => rfl
    | up d q b hq hnc _ =>
      rw [hp] at hq
      cases hq
      exact absurd hc hnc
  | up d p a hp hnc h1x ih =>
    cases h2 with
    | self d q hq hc =>
      rw [hp] at hq
      cases hq
      exact absurd hc hnc
    | up d q b hq hnc2 h2x =>
      rw [hp] at hq
      cases hq
      exact ih h2x

/-- The chase relation over the mutable map: `ChasesVia m d path a` means
the pointer chain from `d` reaches the fixpoint `a`, visiting exactly the
keys in `path` before it. -/
inductive ChasesVia (m : List (Nat × Nat)) : Nat → List Nat → Nat → Prop
  | done (d : Nat) : alookup m d = some d → ChasesVia m d [] d
  | step (d e : Nat) (path : List Nat) (a : Nat) : alookup m d = some e →
      e ≠ d → ChasesVia m e path a → ChasesVia m d (d :: path) a

lemma chasesVia_det (m : List (Nat × Nat)) :
    ∀ {d p a q b}, ChasesVia m d p a → ChasesVia m d q b → a = b := by
  intro d p a q b h1 h2
  induction h1 generalizing q b with
  | done d hd =>
    cases h2 with
    | done => rfl
    | step d2 e path b he hne _ =>
      rw [hd] at he
      cases he
      exact absurd rfl hne
  | step d e path a he hne h1x ih =>
    cases h2 with
    | done d2 hd =>
      rw [hd] at he
      cases he
      exact absurd rfl hne
    | step d2 f q b hf hnf h2x =>
      rw [he] at hf
      cases hf
      exact ih h2x

lemma alookup_cons (k v x : Nat) (m : List (Nat × Nat)) :
    alookup ((k, v) :: m) x = if k = x then some v else alookup m x := by
  unfold alookup
  by_cases hkx : k = x
  · rw [if_pos hkx]
    rw [List.find?_cons_of_pos _ (by simpa using hkx)]
    rfl
  · rw [if_neg hkx]
    rw [List.find?_cons_of_neg _ (by simpa using hkx)]

lemma alookup_setAll (m : List (Nat × Nat)) (path : List Nat) (a x : Nat) :
    alookup (setAll m path a) x
      = if x ∈ path then (alookup m x).map (fun _ => a)
        else alookup m x := by
  induction m with
  | nil =>
    unfold setAll alookup
    simp
  | cons pr m ih =>
    obtain ⟨k, v⟩ := pr
    have hset : setAll ((k, v) :: m) path a
        = (if k ∈ path then (k, a) else (k, v)) :: setAll m path a := by
      unfold setAll
      rw [List.map_cons]
    rw [hset]
    by_cases hkp : k ∈ path
    · rw [if_pos hkp]
      by_cases hkx : k = x
      · subst hkx
        rw [alookup_cons, if_pos rfl, alookup_cons, if_pos rfl,
          if_pos hkp]
        rfl
      · rw [alookup_cons, if_neg hkx, alookup_cons, if_neg hkx, ih]
    · rw [if_neg hkp]
      by_cases hkx : k = x
      · subst hkx
        rw [alookup_cons, if_pos rfl, alookup_cons, if_pos rfl,
          if_neg hkp]
      · rw [alookup_cons, if_neg hkx, alookup_cons, if_neg hkx, ih]

lemma chaseLoop_none (m : List (Nat × Nat)) (fuel d : Nat)
    (hd : alookup m d = none) : chaseLoop m (fuel + 1) d = none := by
  unfold chaseLoop
  rw [hd]

lemma chaseLoop_fix (m : List (Nat × Nat)) (fuel d : Nat)
    (hd : alookup m d = some d) :
    chaseLoop m (fuel + 1) d = some ([], d) := by
  unfold chaseLoop
  rw [hd]
  show (if d = d then some ([], d)
      else (chaseLoop m fuel d).map (fun r => (d :: r.1, r.2)))
    = some ([], d)
  rw [if_pos rfl]

lemma chaseLoop_step (m : List (Nat × Nat)) (fuel d e : Nat)
    (hd : alookup m d = some e) (hne : e ≠ d) :
    chaseLoop m (fuel + 1) d
      = (chaseLoop m fuel e).map (fun r => (d :: r.1, r.2)) := by
  conv_lhs => unfold chaseLoop
  rw [hd]
  show (if e = d then some ([], e)
      else (chaseLoop m fuel e).map (fun r => (d :: r.1, r.2)))
    = (chaseLoop m fuel e).map (fun r => (d :: r.1, r.2))
  rw [if_neg hne]

lemma chaseLoop_sound (m : List (Nat × Nat)) (fuel : Nat) :
    ∀ d path a, chaseLoop m fuel d = some (path, a) →
      ChasesVia m d path a ∧ alookup m a = some a ∧
      (∀ x ∈ path, ∃ e, alookup m x = some e ∧ e ≠ x) ∧
      (∀ x ∈ path, ∃ px, ChasesVia m x px a) := by
  induction fuel with
  | zero =>
    intro d path a h
    exact absurd h (by unfold chaseLoop; simp)
  | succ fuel ih =>
    intro d path a h
    rcases hd : alookup m d with _ | e
    · rw [chaseLoop_none m fuel d hd] at h
      exact absurd h (by simp)
    · by_cases hed : e = d
      · subst hed
        rw [chaseLoop_fix m fuel e hd] at h
        simp only [Option.some.injEq, Prod.mk.injEq] at h
        obtain ⟨h1, h2⟩ := h
        subst h1
        subst h2
        exact ⟨ChasesVia.done e hd, hd, by simp, by simp⟩
      · rw [chaseLoop_step m fuel d e hd hed] at h
        rcases hrec : chaseLoop m fuel e with _ | pr
        · rw [hrec] at h
          exact absurd h (by simp)
        · obtain ⟨p2, a2⟩ := pr
          rw [hrec] at h
          simp only [Option.map_some', Option.some.injEq,
            Prod.mk.injEq] at h
          obtain ⟨hpath, ha⟩ := h
          subst ha
          obtain ⟨hch, hfix, hnf, hall⟩ := ih e p2 a2 hrec
          subst hpath
          refine ⟨ChasesVia.step d e p2 a2 hd hed hch, hfix, ?_, ?_⟩
          · intro x hx
            rcases List.mem_cons.mp hx with rfl | hx2
            · exact ⟨e, hd, hed⟩
            · exact hnf x hx2
          · intro x hx
            rcases List.mem_cons.mp hx with rfl | hx2
            · exact ⟨x :: p2, ChasesVia.step x e p2 a2 hd hed hch⟩
            · exact hall x hx2

lemma chaseLoop_complete (m : List (Nat × Nat)) :
    ∀ {d path a}, ChasesVia m d path a → ∀ fuel, path.length < fuel →
      chaseLoop m fuel d = some (path, a) := by
  intro d path a hc
  induction hc with
  | done d hd =>
    intro fuel hfuel
    cases fuel with
    | zero => exact absurd hfuel (by simp)
    | succ fuel => exact chaseLoop_fix m fuel d hd
  | step d e path a he hne hch ih =>
    intro fuel hfuel
    cases fuel with
    | zero => exact absurd hfuel (by simp)
    | succ fuel =>
      have hlen : path.length < fuel := by
        simp only [List.length_cons] at hfuel
        omega
      rw [chaseLoop_step m fuel d e he hne, ih fuel hlen]
      rfl

lemma nodup_subset_length {l1 l2 : List Nat} (h1 : l1.Nodup)
    (h2 : l1 ⊆ l2) : l1.length ≤ l2.length := by
  classical
  calc l1.length = l1.toFinset.card := (List.toFinset_card_of_nodup h1).symm
    _ ≤ l2.toFinset.card := Finset.card_le_card (fun x hx => by
        rw [List.mem_toFinset] at hx ⊢
        exact h2 hx)
    _ ≤ l2.length := l2.toFinset_card_le

/-- Memoizing a resolved chase (writing the common fixpoint over every
key on the walked path) preserves where every chain leads; the rewritten
chain is a sublist of the original one. -/
lemma chases_preserved (m : List (Nat × Nat)) (updPath : List Nat)
    (ua : Nat)
    (hchase : ∀ x ∈ updPath, ∃ px, ChasesVia m x px ua)
    (hnf : ∀ x ∈ updPath, ∃ e, alookup m x = some e ∧ e ≠ x)
    (hfix : alookup m ua = some ua) :
    ∀ {d path a}, ChasesVia m d path a →
      ∃ path2, ChasesVia (setAll m updPath ua) d path2 a ∧
        path2.Sublist path := by
  have hua_not : ua ∉ updPath := by
    intro hmem
    obtain ⟨e, he, hne⟩ := hnf ua hmem
    rw [hfix] at he
    cases he
    exact hne rfl
  intro d path a hc
  induction hc with
  | done d hd =>
    have hd_not : d ∉ updPath := by
      intro hmem
      obtain ⟨e, he, hne⟩ := hnf d hmem
      rw [hd] at he
      cases he
      exact hne rfl
    refine ⟨[], ChasesVia.done d ?_, List.nil_sublist []⟩
    rw [alookup_setAll, if_neg hd_not]
    exact hd
  | step d e path a he hne hch ih =>
    by_cases hd : d ∈ updPath
    · obtain ⟨px, hpx⟩ := hchase d hd
      have hau : a = ua :=
        chasesVia_det m (ChasesVia.step d e path a he hne hch) hpx
      subst hau
      have hananot : a ≠ d := by
        intro heq
        subst heq
        exact hua_not hd
      refine ⟨[d], ChasesVia.step d a [] a ?_ hananot
        (ChasesVia.done a ?_), ?_⟩
      · rw [alookup_setAll, if_pos hd, he]
        rfl
      · rw [alookup_setAll, if_neg hua_not]
        exact hfix
      · exact (List.nil_sublist path).cons₂ d
    · obtain ⟨p2, hc2, hsub⟩ := ih
      refine ⟨d :: p2, ChasesVia.step d e p2 a ?_ hne hc2, hsub.cons₂ d⟩
      rw [alookup_setAll, if_neg hd]
      exact he

/-- A chain's endpoint is a fixpoint of the map. -/
lemma chases_last_fix (m : List (Nat × Nat)) :
    ∀ {d p b}, ChasesVia m d p b → alookup m b = some b := by
  intro d p b hc
  induction hc with
  | done d hd => exact hd
  | step _ _ _ _ _ _ _ ih => exact ih

/-- Invariant carried across `update_administrative`: every synced
department's chain through the map reaches its administrative department
(in the sense of `AdminRel`) over a duplicate-free path of synced
departments. -/
def ChaseInv (parentOf : Nat → Option Nat) (root : Nat) (ds : List Nat)
    (m : List (Nat × Nat)) : Prop :=
  ∀ d ∈ ds, ∃ path a, ChasesVia m d path a ∧ AdminRel parentOf root d a ∧
    path.Nodup ∧ path ⊆ ds

lemma update_administrative_ok (parentOf : Nat → Option Nat) (root : Nat)
    (ds : List Nat) (fuel : Nat) (hfuel : ds.length < fuel) :
    ∀ keys, keys ⊆ ds →
    ∀ m, ChaseInv parentOf root ds m →
      ∃ m2, update_administrative fuel keys m = some m2 ∧
        ChaseInv parentOf root ds m2 ∧
        (∀ d ∈ keys, ∀ b, AdminRel parentOf root d b →
          alookup m2 d = some b) ∧
        (∀ d ∈ ds, ∀ b, AdminRel parentOf root d b →
          alookup m d = some b → alookup m2 d = some b) := by
  intro keys
  induction keys with
  | nil =>
    intro _ m hJ
    exact ⟨m, rfl, hJ, by simp, fun d _ b _ h => h⟩
  | cons k rest ih =>
    intro hsub m hJ
    have hkds : k ∈ ds := hsub (List.mem_cons_self k rest)
    obtain ⟨path, a, hch, hadm, hndp, hsubp⟩ := hJ k hkds
    have hlen : path.length < fuel :=
      Nat.lt_of_le_of_lt (nodup_subset_length hndp hsubp) hfuel
    have hloop : chaseLoop m fuel k = some (path, a) :=
      chaseLoop_complete m hch fuel hlen
    obtain ⟨hchs, hfix, hnf, hall⟩ := chaseLoop_sound m fuel k path a hloop
    have hJ2 : ChaseInv parentOf root ds (setAll m path a) := by
      intro d hd
      obtain ⟨p0, a0, hc0, hadm0, hnd0, hsub0⟩ := hJ d hd
      obtain ⟨p2, hc2, hs2⟩ := chases_preserved m path a hall hnf hfix hc0
      exact ⟨p2, a0, hc2, hadm0, hs2.nodup hnd0,
        fun x hx => hsub0 (hs2.subset hx)⟩
    have hkeep : ∀ d ∈ ds, ∀ b, AdminRel parentOf root d b →
        alookup m d = some b → alookup (setAll m path a) d = some b := by
      intro d hd b hbadm hbl
      by_cases hdp : d ∈ path
      · obtain ⟨p0, a0, hc0, hadm0, _, _⟩ := hJ d hd
        have ha0b : a0 = b := adminRel_det parentOf root hadm0 hbadm
        subst ha0b
        have hbfix : alookup m a0 = some a0 := chases_last_fix m hc0
        have hbd : a0 ≠ d := by
          intro heq
          obtain ⟨e, he, hne⟩ := hnf d hdp
          rw [hbl] at he
          cases he
          exact hne heq
        have hchain : ChasesVia m d [d] a0 :=
          ChasesVia.step d a0 [] a0 hbl hbd (ChasesVia.done a0 hbfix)
        obtain ⟨pd, hpd⟩ := hall d hdp
        have hab : a = a0 := chasesVia_det m hpd hchain
        rw [alookup_setAll, if_pos hdp, hbl, hab]
        rfl
      · rw [alookup_setAll, if_neg hdp]
        exact hbl
    obtain ⟨m2, heq2, hJ3, hrest, hkeep2⟩ :=
      ih (fun x hx => hsub (List.mem_cons_of_mem k hx)) (setAll m path a) hJ2
    have hstep : update_administrative fuel (k :: rest) m
        = update_administrative fuel rest (setAll m path a) := by
      conv_lhs => unfold update_administrative
      rw [hloop]
    have hk2 : alookup (setAll m path a) k = some a := by
      cases hchs with
      | done d2 hkfix =>
        rw [alookup_setAll]
        rw [if_neg (by simp)]
        exact hkfix
      | step k2 e p2 a2 he hne hc2 =>
        rw [alookup_setAll, if_pos (List.mem_cons_self k p2), he]
        rfl
    refine ⟨m2, hstep.trans heq2, hJ3, ?_, ?_⟩
    · intro d hd b hbadm
      rcases List.mem_cons.mp hd with rfl | hdrest
      · have hba : b = a := adminRel_det parentOf root hbadm hadm
        subst hba
        exact hkeep2 d hkds b hbadm hk2
      · exact hrest d hdrest b hbadm
    · intro d hd b hbadm hbl
      exact hkeep2 d hd b hbadm (hkeep d hd b hbadm hbl)


lemma buildInitial_some (parentOf : Nat → Option Nat) (root : Nat) :
    ∀ ds : List Nat, ds.Nodup →
      (∀ d ∈ ds, ∃ p, parentOf d = some p) →
      ∃ m0, buildInitial parentOf root ds = some m0 ∧
        ∀ d ∈ ds, ∀ p, parentOf d = some p →
          alookup m0 d
            = some (if p = root ∨ parentOf p = some root then d else p) := by
  intro ds
  induction ds with
  | nil => exact fun _ _ => ⟨[], rfl, by simp⟩
  | cons k rest ih =>
    intro hnd hpar
    obtain ⟨pk, hpk⟩ := hpar k (List.mem_cons_self k rest)
    rw [List.nodup_cons] at hnd
    obtain ⟨m0, hm0, hprop⟩ :=
      ih hnd.2 (fun d hd => hpar d (List.mem_cons_of_mem k hd))
    have h1 : initialAdministrative parentOf root k
        = some (if pk = root ∨ parentOf pk = some root then k else pk) := by
      unfold initialAdministrative
      rw [hpk]
      show (if pk = root ∨ parentOf pk = some root then some k else some pk)
        = some (if pk = root ∨ parentOf pk = some root then k else pk)
      by_cases hc : pk = root ∨ parentOf pk = some root
      · rw [if_pos hc, if_pos hc]
      · rw [if_neg hc, if_neg hc]
    refine ⟨(k, if pk = root ∨ parentOf pk = some root then k else pk) :: m0,
      ?_, ?_⟩
    · conv_lhs => unfold buildInitial
      rw [h1, hm0]
    · intro d hd p hp
      rcases List.mem_cons.mp hd with rfl | hdrest
      · rw [hpk] at hp
        cases hp
        rw [alookup_cons, if_pos rfl]
      · have hkd : k ≠ d := fun heq => hnd.1 (heq ▸ hdrest)
        rw [alookup_cons, if_neg hkd]
        exact hprop d hdrest p hp

lemma initial_chaseInv_aux (parentOf : Nat → Option Nat) (root : Nat)
    (ds : List Nat) (depth : Nat → Nat)
    (hds : ∀ d ∈ ds, ∃ p, parentOf d = some p ∧ depth d = depth p + 1 ∧
      (p = root ∨ p ∈ ds))
    (m0 : List (Nat × Nat))
    (hm0 : ∀ d ∈ ds, ∀ p, parentOf d = some p →
      alookup m0 d
        = some (if p = root ∨ parentOf p = some root then d else p)) :
    ∀ n, ∀ d ∈ ds, depth d ≤ n →
      ∃ path a, ChasesVia m0 d path a ∧ AdminRel parentOf root d a ∧
        path.Nodup ∧ path ⊆ ds ∧ (∀ x ∈ path, depth x ≤ depth d) := by
  intro n
  induction n with
  | zero =>
    intro d hd hdep
    obtain ⟨p, _, hdp, _⟩ := hds d hd
    omega
  | succ n ih =>
    intro d hd hdep
    obtain ⟨p, hp, hdp, hpmem⟩ := hds d hd
    by_cases hc : p = root ∨ parentOf p = some root
    · have hl : alookup m0 d = some d := by
        rw [hm0 d hd p hp, if_pos hc]
      exact ⟨[], d, ChasesVia.done d hl, AdminRel.self d p hp hc,
        List.nodup_nil, by simp, by simp⟩
    · have hl : alookup m0 d = some p := by
        rw [hm0 d hd p hp, if_neg hc]
      have hpds : p ∈ ds := by
        rcases hpmem with rfl | h
        · exact absurd (Or.inl rfl) hc
        · exact h
      obtain ⟨path, a, hch, hadm, hndp, hsubs, hdepth⟩ :=
        ih p hpds (by omega)
      have hpd : p ≠ d := by
        intro heq
        rw [heq] at hdp
        omega
      refine ⟨d :: path, a, ChasesVia.step d p path a hl hpd hch,
        AdminRel.up d p a hp hc hadm, ?_, ?_, ?_⟩
      · rw [List.nodup_cons]
        refine ⟨fun hdx => ?_, hndp⟩
        have := hdepth d hdx
        omega
      · intro x hx
        rcases List.mem_cons.mp hx with rfl | h
        · exact hd
        · exact hsubs h
      · intro x hx
        rcases List.mem_cons.mp hx with rfl | h
        · exact le_rfl
        · have := hdepth x h
          omega

/-- C4 (amended): in the organization forest maintained by
`_update_from_department_information`, a department's computed
administrative department is itself exactly when it is a top-THREE-levels
node — the root, a direct child of the root, or a grandchild of the root
— and otherwise it is the nearest ancestor that is such a node (its
parent's administrative department); in particular a third-level
department is its own administrative department, not its second-level
parent.  `AdminRel` is that specification, the conjuncts state that the
computed map realizes it and that it is uniquely characterized. -/
theorem computeAdministrative_spec (parentOf : Nat → Option Nat)
    (root : Nat) (ds : List Nat) (depth : Nat → Nat)
    (hnd : ds.Nodup) (_hroot : root ∉ ds)
    (hds : ∀ d ∈ ds, ∃ p, parentOf d = some p ∧ depth d = depth p + 1 ∧
      (p = root ∨ p ∈ ds)) :
    ∃ m, computeAdministrative parentOf root ds = some m ∧
      (∀ d ∈ ds, ∃ a, AdminRel parentOf root d a ∧
        alookup m d = some a) ∧
      (∀ d a b, AdminRel parentOf root d a → AdminRel parentOf root d b →
        a = b) ∧
      (∀ d p, parentOf d = some p → (p = root ∨ parentOf p = some root) →
        AdminRel parentOf root d d) ∧
      (∀ d p a, parentOf d = some p →
        ¬(p = root ∨ parentOf p = some root) →
        (AdminRel parentOf root d a ↔ AdminRel parentOf root p a)) := by
  obtain ⟨m0, hm0eq, hm0⟩ := buildInitial_some parentOf root ds hnd
    (fun d hd => (hds d hd).elim (fun p hp => ⟨p, hp.1⟩))
  have hJ0 : ChaseInv parentOf root ds m0 := by
    intro d hd
    obtain ⟨path, a, hch, hadm, hndp, hsubs, _⟩ :=
      initial_chaseInv_aux parentOf root ds depth hds m0 hm0
        (depth d) d hd le_rfl
    exact ⟨path, a, hch, hadm, hndp, hsubs⟩
  obtain ⟨m2, hupd, _, hkeys, _⟩ :=
    update_administrative_ok parentOf root ds (ds.length + 1)
      (Nat.lt_succ_self _) ds (fun x h => h) m0 hJ0
  refine ⟨m2, ?_, ?_, fun d a b => adminRel_det parentOf root, ?_, ?_⟩
  · conv_lhs => unfold computeAdministrative
    rw [hm0eq]
    exact hupd
  · intro d hd
    obtain ⟨path, a, _, hadm, _, _⟩ := hJ0 d hd
    exact ⟨a, hadm, hkeys d hd a hadm⟩
  · exact fun d p hp hc => AdminRel.self d p hp hc
  · intro d p a hp hnc
    constructor
    · intro h
      cases h with
      | self d2 q hq hcq =>
        rw [hp] at hq
        cases hq
        exact absurd hcq hnc
      | up d2 q a hq hncq h2 =>
        rw [hp] at hq
        cases hq
        exact h2
    · exact fun h => AdminRel.up d p a hp hnc h

/-- Witness for the amended C4 on a four-level chain: root 1, campus 10,
college 100 (grandchild of the root, hence its own administrative
department) and lab 1000 (administrative department resolved upward). -/
theorem computeAdministrative_spec_witness :
    ∃ m, computeAdministrative
        (fun d => if d = 10 then some 1 else if d = 100 then some 10
          else if d = 1000 then some 100 else none)
        1 [10, 100, 1000] = some m ∧
      (∀ d ∈ [10, 100, 1000], ∃ a, AdminRel
        (fun d => if d = 10 then some 1 else if d = 100 then some 10
          else if d = 1000 then some 100 else none) 1 d a ∧
        alookup m d = some a) ∧
      (∀ d a b, AdminRel
        (fun d => if d = 10 then some 1 else if d = 100 then some 10
          else if d = 1000 then some 100 else none) 1 d a →
        AdminRel
        (fun d => if d = 10 then some 1 else if d = 100 then some 10
          else if d = 1000 then some 100 else none) 1 d b → a = b) ∧
      (∀ d p, (if d = 10 then some 1 else if d = 100 then some 10
          else if d = 1000 then some 100 else none) = some p →
        (p = 1 ∨ (if p = 10 then some 1 else if p = 100 then some 10
          else if p = 1000 then some 100 else none) = some 1) →
        AdminRel
        (fun d => if d = 10 then some 1 else if d = 100 then some 10
          else if d = 1000 then some 100 else none) 1 d d) ∧
      (∀ d p a, (if d = 10 then some 1 else if d = 100 then some 10
          else if d = 1000 then some 100 else none) = some p →
        ¬(p = 1 ∨ (if p = 10 then some 1 else if p = 100 then some 10
          else if p = 1000 then some 100 else none) = some 1) →
        (AdminRel
          (fun d => if d = 10 then some 1 else if d = 100 then some 10
            else if d = 1000 then some 100 else none) 1 d a ↔
         AdminRel
          (fun d => if d = 10 then some 1 else if d = 100 then some 10
            else if d = 1000 then some 100 else none) 1 p a)) :=
  computeAdministrative_spec
    (fun d => if d = 10 then some 1 else if d = 100 then some 10
      else if d = 1000 then some 100 else none)
    1 [10, 100, 1000]
    (fun d => if d = 1 then 0 else if d = 10 then 1
      else if d = 100 then 2 else 3)
    (by decide) (by decide)
    (by
      intro d hd
      fin_cases hd
      · exact ⟨1, rfl, by decide, Or.inl rfl⟩
      · exact ⟨10, rfl, by decide, Or.inr (by decide)⟩
      · exact ⟨100, rfl, by decide, Or.inr (by decide)⟩)

end TMSFTT


